import Mathlib

/-!
Verification development for the go-handy repository.

The development shallowly embeds the parts of the repository that the
claims talk about:

* the SQL-based account comparison of the third unnamed source file
  (`fetchAccounts` / `filterVaultAccounts` / `createComparisonTables` /
  `insertNotVaulted` / `insertOrphaned` / `runComparisonForPlatform`),
  modelled as pure state transformers over an explicit database state;
* the Unix-timestamp helpers `UnixToTime` / `TimeToUnix` of
  `insertcreate.go`;
* `DebugTransport.RoundTrip` of `httpdbg/transport.go`;
* the discrepancy-history reconciliation engine exercised by the tests of
  the second unnamed source file (`NewAccountComparer` /
  `CompareAccounts`).  Its implementation is not part of the source tree
  (only its tests are), so it is modelled from the specification.
-/

/-- An account row: the shape shared by `vault_accounts`, `ad_accounts`
(second unnamed file, `setupTestDB`) and the per-platform source tables
read by the comparison queries of the third unnamed file. -/
structure Account where
  account_id : String
  account_name : String
  platform : String
  deriving DecidableEq

/-! ### The SQL comparison of the third unnamed source file -/

/-- Characters of a string, lower-cased.  SQL `ILIKE` compares
case-insensitively, which we model by lower-casing both sides. -/
def lowerChars (s : String) : List Char := s.data.map Char.toLower

/-- Whether the first character list is an initial segment of the second. -/
def startsWithCh : List Char → List Char → Bool
  | [], _ => true
  | _ :: _, [] => false
  | c :: cs, d :: ds => decide (c = d) && startsWithCh cs ds

/-- Whether the first character list occurs contiguously inside the second. -/
def containsCh (pat : List Char) : List Char → Bool
  | [] => startsWithCh pat []
  | d :: ds => startsWithCh pat (d :: ds) || containsCh pat ds

/-- SQL `s ILIKE '%pat%'`: case-insensitive substring match.  This is the
predicate used by `filterVaultAccounts` (third unnamed file, the query
`SELECT * FROM vault_accounts WHERE account_name ILIKE $1` with the
argument `"%" + searchTerm + "%"`). -/
def ilike (s pat : String) : Bool := containsCh (lowerChars pat) (lowerChars s)

/-- The read-only tables consulted by the comparison queries: the shared
`vault_accounts` table and, per platform `p`, the `p_accounts` and
`p_endpoints` tables. -/
structure SrcTables where
  vault_accounts : List Account
  accountsOf : String → List Account
  endpointsOf : String → List Account

/-- Errors surfaced by the modelled SQL statements: an injected execution
failure (connectivity etc.), `CREATE TEMP TABLE` hitting an existing
table, a statement referring to a missing table, and a primary-key
violation on `INSERT`. -/
inductive SqlError
  | execFail
  | tableExists
  | missingTable
  | duplicateKey
  deriving DecidableEq

/-- The mutable database state touched by the comparison of the third
unnamed file: the `filtered_vault` temp table (absent until created) and
the `not_vaulted_<platform>` / `orphaned_<platform>` result tables, kept
as association lists from table suffix (the platform) to the stored
`account_name` rows. -/
structure CompareDB where
  filtered_vault : Option (List Account)
  not_vaulted : List (String × List String)
  orphaned : List (String × List String)
  deriving DecidableEq

/-- A database in which no comparison has run yet. -/
def cmpInit : CompareDB := ⟨none, [], []⟩

/-- Lookup of a per-platform result table. -/
def tblLookup : List (String × List String) → String → Option (List String)
  | [], _ => none
  | (k, v) :: rest, nm => if k = nm then some v else tblLookup rest nm

/-- Replacement of the rows of a per-platform result table (creating the
table when absent). -/
def tblSet : List (String × List String) → String → List String → List (String × List String)
  | [], nm, rows => [(nm, rows)]
  | (k, v) :: rest, nm, rows =>
    if k = nm then (nm, rows) :: rest else (k, v) :: tblSet rest nm rows

/-- Go `createComparisonTables(db, platform)`: one `db.Exec` issuing
`CREATE TABLE IF NOT EXISTS not_vaulted_<platform>` and
`CREATE TABLE IF NOT EXISTS orphaned_<platform>` (each with
`account_name TEXT PRIMARY KEY`).  `execFails` injects a failing
`db.Exec`, in which case nothing is written. -/
def createComparisonTables (st : CompareDB) (platform : String) (execFails : Bool) :
    CompareDB × Option SqlError :=
  if execFails then (st, some .execFail)
  else
    let nv := match tblLookup st.not_vaulted platform with
      | some _ => st.not_vaulted
      | none => st.not_vaulted ++ [(platform, [])]
    let orp := match tblLookup st.orphaned platform with
      | some _ => st.orphaned
      | none => st.orphaned ++ [(platform, [])]
    ({ st with not_vaulted := nv, orphaned := orp }, none)

/-- Go `filterVaultAccounts(db, searchTerm)`:
`CREATE TEMP TABLE filtered_vault AS SELECT * FROM vault_accounts WHERE
account_name ILIKE '%searchTerm%'`.  The statement fails if the temp
table already exists; on success the temp table holds exactly the vault
rows whose name contains the search term case-insensitively. -/
def filterVaultAccounts (src : SrcTables) (st : CompareDB) (searchTerm : String)
    (execFails : Bool) : CompareDB × Option SqlError :=
  if execFails then (st, some .execFail)
  else match st.filtered_vault with
    | some _ => (st, some .tableExists)
    | none =>
      ({ st with
          filtered_vault :=
            some (src.vault_accounts.filter (fun v => ilike v.account_name searchTerm)) },
        none)

/-- Go `insertNotVaulted(db, platform)`:
`INSERT INTO not_vaulted_<platform> (account_name) SELECT p.account_name
FROM <platform>_accounts p LEFT JOIN filtered_vault v ON p.account_name =
v.account_name WHERE v.account_name IS NULL`.  The selected rows are the
platform account names with no exactly-equal name in the filtered vault;
the insert fails atomically on a primary-key duplicate. -/
def insertNotVaulted (src : SrcTables) (st : CompareDB) (platform : String)
    (execFails : Bool) : CompareDB × Option SqlError :=
  if execFails then (st, some .execFail)
  else match st.filtered_vault, tblLookup st.not_vaulted platform with
    | some fv, some existing =>
      let newRows := ((src.accountsOf platform).map (·.account_name)).filter
        (fun n => !(fv.any (fun v => decide (v.account_name = n))))
      if (existing ++ newRows).Nodup then
        ({ st with not_vaulted := tblSet st.not_vaulted platform (existing ++ newRows) }, none)
      else (st, some .duplicateKey)
    | _, _ => (st, some .missingTable)

/-- Go `insertOrphaned(db, platform)`:
`INSERT INTO orphaned_<platform> (account_name) SELECT e.account_name
FROM <platform>_endpoints e LEFT JOIN filtered_vault v ON e.account_name
= v.account_name WHERE v.account_name IS NULL`.  Note the source table:
the rows come from `<platform>_endpoints` minus the filtered vault, the
same direction as `insertNotVaulted`, not vault minus platform. -/
def insertOrphaned (src : SrcTables) (st : CompareDB) (platform : String)
    (execFails : Bool) : CompareDB × Option SqlError :=
  if execFails then (st, some .execFail)
  else match st.filtered_vault, tblLookup st.orphaned platform with
    | some fv, some existing =>
      let newRows := ((src.endpointsOf platform).map (·.account_name)).filter
        (fun n => !(fv.any (fun v => decide (v.account_name = n))))
      if (existing ++ newRows).Nodup then
        ({ st with orphaned := tblSet st.orphaned platform (existing ++ newRows) }, none)
      else (st, some .duplicateKey)
    | _, _ => (st, some .missingTable)

/-- Go `runComparisonForPlatform(db, platform, searchTerm)`: runs the four
steps in order, returning on the first error.  There is no transaction:
each step commits on its own, so the state accumulated before a failing
step is returned as-is.  The four booleans inject `db.Exec` failures into
the respective steps. -/
def runComparisonForPlatform (src : SrcTables) (st : CompareDB) (platform searchTerm : String)
    (f1 f2 f3 f4 : Bool) : CompareDB × Option SqlError :=
  match createComparisonTables st platform f1 with
  | (st1, some e) => (st1, some e)
  | (st1, none) =>
    match filterVaultAccounts src st1 searchTerm f2 with
    | (st2, some e) => (st2, some e)
    | (st2, none) =>
      match insertNotVaulted src st2 platform f3 with
      | (st3, some e) => (st3, some e)
      | (st3, none) => insertOrphaned src st3 platform f4

/-- Sequencing of state transformers with early return and no rollback:
each completed step's writes persist, and the first error stops the
sequence with the state accumulated so far.  Used to state what
`runComparisonForPlatform` actually guarantees in place of atomicity. -/
def seqPersist : List (CompareDB → CompareDB × Option SqlError) → CompareDB →
    CompareDB × Option SqlError
  | [], st => (st, none)
  | step :: rest, st =>
    match step st with
    | (st1, none) => seqPersist rest st1
    | (st1, some e) => (st1, some e)

/-- The four steps of `runComparisonForPlatform`, in source order. -/
def comparisonSteps (src : SrcTables) (platform searchTerm : String)
    (f1 f2 f3 f4 : Bool) : List (CompareDB → CompareDB × Option SqlError) :=
  [fun st => createComparisonTables st platform f1,
   fun st => filterVaultAccounts src st searchTerm f2,
   fun st => insertNotVaulted src st platform f3,
   fun st => insertOrphaned src st platform f4]

/-- Source tables with no accounts anywhere. -/
def emptySrc : SrcTables := ⟨[], fun _ => [], fun _ => []⟩

/-- Concrete source tables: the vault and the `linux_accounts` table both
hold the same account (id `id1`, name `root`), and no endpoints exist. -/
def c1Src : SrcTables :=
  ⟨[⟨"id1", "root", "linux"⟩],
    fun p => if p = "linux" then [⟨"id1", "root", "linux"⟩] else [],
    fun _ => []⟩

/-- Concrete source tables: the vault holds one account (id `idB`, name
`B`) and both platform-side tables are empty. -/
def c2Src : SrcTables := ⟨[⟨"idB", "B", "linux"⟩], fun _ => [], fun _ => []⟩

/-- Concrete source tables: `linux_accounts` holds one account named
`alice`, the vault and the endpoints are empty. -/
def c4Src : SrcTables :=
  ⟨[], fun p => if p = "linux" then [⟨"a1", "alice", "linux"⟩] else [], fun _ => []⟩

/-! ### The Unix-timestamp helpers of insertcreate.go -/

/-- A Go `time.Time` instant, reduced to its wall clock: whole seconds
since the Unix epoch plus a sub-second nanosecond part in `[0, 1e9)`
(Go's internal representation always normalizes nanoseconds into this
range, so truncation towards the epoch is the same as zeroing `nsec`). -/
structure GoTime where
  sec : Int
  nsec : Nat
  nsec_lt : nsec < 1000000000

/-- Go `UnixToTime(unix int64) time.Time { return time.Unix(unix, 0) }`:
the instant with the given whole seconds and zero nanoseconds. -/
def UnixToTime (unix : Int) : GoTime := ⟨unix, 0, by decide⟩

/-- Go `TimeToUnix(t time.Time) int64 { return t.Unix() }`: the whole
seconds of the instant; the nanosecond part is discarded. -/
def TimeToUnix (t : GoTime) : Int := t.sec

/-- An instant truncated to whole seconds (its nanosecond part zeroed). -/
def truncToSecond (t : GoTime) : GoTime := ⟨t.sec, 0, by decide⟩

/-! ### DebugTransport.RoundTrip of httpdbg/transport.go -/

/-- An HTTP request as the transport observes it: method, URL, headers and
an optional body, the body given by the byte sequence its reader yields
(`req.Body` may be nil in Go, hence the `Option`). -/
structure HttpRequest where
  method : String
  url : String
  headers : List (String × String)
  body : Option (List Nat)
  deriving DecidableEq

/-- An HTTP response: status line, headers, and the byte sequence of its
body reader. -/
structure HttpResponse where
  status : String
  headers : List (String × String)
  body : List Nat
  deriving DecidableEq

/-- Go `io.ReadAll(req.Body)` followed by
`req.Body = io.NopCloser(bytes.NewBuffer(requestBody))`: reading consumes
the body, and the transport replaces it with a buffer holding exactly the
bytes read; a nil body is left nil and reads as no bytes. -/
def drainBody : Option (List Nat) → List Nat × Option (List Nat)
  | none => ([], none)
  | some bs => (bs, some bs)

/-- The request `DebugTransport.RoundTrip` hands to the underlying
transport: the caller's request with its body consumed for logging and
replaced by an equivalent buffer. -/
def forwardedRequest (req : HttpRequest) : HttpRequest :=
  { req with body := (drainBody req.body).2 }

/-- Go `DebugTransport.RoundTrip`: log the request (reading and restoring
its body), call the underlying transport, propagate its error unchanged,
and otherwise log the response, reading its body and restoring it from a
buffer of the same bytes.  The underlying transport is modelled as a
function from request to response-or-error; logging writes to stdout and
does not affect the data flow. -/
def RoundTrip (transport : HttpRequest → Except String HttpResponse)
    (req : HttpRequest) : Except String HttpResponse :=
  let req2 := forwardedRequest req
  match transport req2 with
  | .error e => .error e
  | .ok resp =>
    let responseBody := (resp.body, some resp.body).1
    .ok { resp with body := responseBody }

/-! ### The discrepancy-history reconciliation engine

Modelled from the spec: the implementation behind `NewAccountComparer` /
`CompareAccounts` (tested by `TestAccountComparison` in the second
unnamed source file) and the `DiscrepancyHistoryStore` contract are not
present under the source tree — only their tests and the
`account_discrepancy_history` schema are.  The definitions below follow
the specification's data model (§3), store contract (§4.2) and
reconciliation state machine (§4.3): observed keys are matched by
`account_id`; an observed key with an open record gets `last_seen`
touched, an observed key without one gets a fresh open record, and an
open record whose key is unobserved is marked resolved; the whole run is
atomic (a failed run returns no new state). -/

/-- The two discrepancy classes (spec §3). -/
inductive DiscrepancyType
  | notVaulted
  | orphaned
  deriving DecidableEq

/-- Modelled from the spec: a row of the discrepancy history (spec §3,
matching the `account_discrepancy_history` schema of `setupTestDB`).
Timestamps are whole Unix seconds. -/
structure DiscrepancyRecord where
  id : Nat
  platform : String
  discrepancy_type : DiscrepancyType
  account_id : String
  account_name : String
  first_detected : Int
  last_seen : Int
  is_resolved : Bool
  resolved_at : Option Int
  deriving DecidableEq

/-- Modelled from the spec: the persisted discrepancy-history store —
its rows plus the next fresh identifier. -/
structure HistoryStore where
  records : List DiscrepancyRecord
  nextId : Nat
  deriving DecidableEq

/-- The summary returned by a reconciliation run (spec §4.3). -/
structure Summary where
  created : Nat
  updated : Nat
  resolved : Nat
  deriving DecidableEq

/-- Modelled from the spec: the error classes of the store and engine
(spec §7). -/
inductive EngineError
  | conflict
  | notFound
  | invariantViolation
  deriving DecidableEq

/-- Whether two rows are both open and share the
`(platform, discrepancy_type, account_id)` key — the configuration the
open-record invariant forbids. -/
def sameOpenKeyB (a b : DiscrepancyRecord) : Bool :=
  !a.is_resolved && !b.is_resolved && decide (a.platform = b.platform)
    && decide (a.discrepancy_type = b.discrepancy_type)
    && decide (a.account_id = b.account_id)

/-- The open-record invariant (spec §3): no two rows of the history are
both open with the same `(platform, discrepancy_type, account_id)` key. -/
def openInvariant (st : HistoryStore) : Prop :=
  st.records.Pairwise (fun a b => sameOpenKeyB a b = false)

/-- Whether a row is an open record of the given platform and type. -/
def openMatches (p : String) (d : DiscrepancyType) (r : DiscrepancyRecord) : Bool :=
  decide (r.platform = p) && decide (r.discrepancy_type = d) && !r.is_resolved

/-- Modelled from the spec: `InsertRecord(rec) -> id` (spec §4.2) — fails
with `ConflictError` if an open record already exists for the same
`(platform, discrepancy_type, account_id)` key, otherwise appends the
record under a fresh identifier. -/
def InsertRecord (st : HistoryStore) (rec : DiscrepancyRecord) :
    Except EngineError (HistoryStore × Nat) :=
  if st.records.any (fun r =>
      openMatches rec.platform rec.discrepancy_type r && decide (r.account_id = rec.account_id)) then
    .error .conflict
  else
    .ok ({ records := st.records ++ [{ rec with id := st.nextId }], nextId := st.nextId + 1 },
      st.nextId)

/-- The per-row effect of one reconciliation pass for `(p, d)` at time
`t`: an open record of that key family has `last_seen` touched when its
account is observed and is marked resolved (with `resolved_at := t`,
`last_seen` untouched) when it is not; every other row is unchanged. -/
def updateFn (p : String) (d : DiscrepancyType) (t : Int) (obsIds : List String)
    (r : DiscrepancyRecord) : DiscrepancyRecord :=
  if openMatches p d r then
    if r.account_id ∈ obsIds then { r with last_seen := t }
    else { r with is_resolved := true, resolved_at := some t }
  else r

/-- A fresh open record for an observed account (spec §4.3 step 3b):
`first_detected = last_seen = t`, unresolved. -/
def mkOpenRecord (p : String) (d : DiscrepancyType) (a : Account) (t : Int) (i : Nat) :
    DiscrepancyRecord :=
  ⟨i, p, d, a.account_id, a.account_name, t, t, false, none⟩

/-- Fresh open records for the newly observed accounts, under consecutive
fresh identifiers. -/
def insertFresh (p : String) (d : DiscrepancyType) (t : Int) :
    Nat → List Account → List DiscrepancyRecord
  | _, [] => []
  | n, a :: rest => mkOpenRecord p d a t n :: insertFresh p d t (n + 1) rest

/-- The open records of `(p, d)` — spec §4.3 step 3a's `openByKey`. -/
def openRecsOf (st : HistoryStore) (p : String) (d : DiscrepancyType) :
    List DiscrepancyRecord :=
  st.records.filter (openMatches p d)

/-- The observed accounts with no open record for their key — those the
pass inserts fresh records for (spec §4.3 step 3b, else-branch). -/
def toInsertOf (st : HistoryStore) (p : String) (d : DiscrepancyType)
    (observed : List Account) : List Account :=
  observed.filter
    (fun a => !((openRecsOf st p d).any (fun r => decide (r.account_id = a.account_id))))

/-- The observed accounts whose key has an open record — those the pass
touches (spec §4.3 step 3b, then-branch). -/
def toUpdateOf (st : HistoryStore) (p : String) (d : DiscrepancyType)
    (observed : List Account) : List Account :=
  observed.filter
    (fun a => (openRecsOf st p d).any (fun r => decide (r.account_id = a.account_id)))

/-- The open records whose key is not observed — those the pass marks
resolved (spec §4.3 step 3c). -/
def toResolveOf (st : HistoryStore) (p : String) (d : DiscrepancyType)
    (observed : List Account) : List DiscrepancyRecord :=
  (openRecsOf st p d).filter
    (fun r => !(decide (r.account_id ∈ observed.map (·.account_id))))

/-- Modelled from the spec: one pass of the reconciliation state machine
(spec §4.3 step 3) for one discrepancy type.  It loads the open records
for `(p, d)`, fails with `InvariantViolation` if two of them share a key
(spec §4.3: never silently pick one), fails with `ConflictError` if the
observed accounts would insert two open records for one key (the second
`InsertRecord` of a duplicated key conflicts), and otherwise touches /
inserts / resolves as the spec prescribes, returning the created, updated
and resolved counts. -/
def runOneType (st : HistoryStore) (p : String) (d : DiscrepancyType) (t : Int)
    (observed : List Account) : Except EngineError (HistoryStore × Nat × Nat × Nat) :=
  if ((openRecsOf st p d).map (·.account_id)).Nodup then
    if ((toInsertOf st p d observed).map (·.account_id)).Nodup then
      .ok ({ records := st.records.map (updateFn p d t (observed.map (·.account_id)))
                ++ insertFresh p d t st.nextId (toInsertOf st p d observed),
             nextId := st.nextId + (toInsertOf st p d observed).length },
        (toInsertOf st p d observed).length, (toUpdateOf st p d observed).length,
        (toResolveOf st p d observed).length)
    else .error .conflict
  else .error .invariantViolation

/-- The observed key set fed to one pass (spec §4.1 as consumed by §4.3):
for `NotVaulted` the platform accounts absent from the vault by
`account_id`, for `Orphaned` the vault accounts absent from the platform
by `account_id`. -/
def observedOf (d : DiscrepancyType) (vaultSet platformSet : List Account) : List Account :=
  match d with
  | .notVaulted =>
    platformSet.filter (fun a => !(vaultSet.any (fun v => decide (v.account_id = a.account_id))))
  | .orphaned =>
    vaultSet.filter (fun a => !(platformSet.any (fun v => decide (v.account_id = a.account_id))))

/-- Modelled from the spec: `Run(platform, at) -> Summary` (spec §4.3) —
compare the two sets, reconcile each discrepancy type against the open
records, and return the combined summary.  A failure yields no new
state (the run is atomic). -/
def EngineRun (st : HistoryStore) (p : String) (t : Int) (vaultSet platformSet : List Account) :
    Except EngineError (HistoryStore × Summary) :=
  match runOneType st p .notVaulted t (observedOf .notVaulted vaultSet platformSet) with
  | .error e => .error e
  | .ok (st1, c1, u1, r1) =>
    match runOneType st1 p .orphaned t (observedOf .orphaned vaultSet platformSet) with
    | .error e => .error e
    | .ok (st2, c2, u2, r2) => .ok (st2, ⟨c1 + c2, u1 + u2, r1 + r2⟩)

/-- The number of open records the history holds for a platform. -/
def openCountFor (st : HistoryStore) (p : String) : Nat :=
  (st.records.filter (fun r => decide (r.platform = p) && !r.is_resolved)).length

/-! ## Theorems -/

/-- Claim C9: `TimeToUnix` and `UnixToTime` form a round-trip — converting
an `int64` to a time and back is the identity, and converting a time to
Unix seconds and back yields the time truncated to whole seconds. -/
theorem C9_unix_time_roundtrip :
    (∀ u : Int, TimeToUnix (UnixToTime u) = u) ∧
    ∀ t : GoTime, UnixToTime (TimeToUnix t) = truncToSecond t :=
  ⟨fun _ => rfl, fun _ => rfl⟩

/-- Claim C10: `DebugTransport.RoundTrip` is observationally transparent —
the request handed to the underlying transport carries the caller's body
bytes unchanged, errors of the underlying transport propagate unchanged,
and on success the caller receives exactly the underlying transport's
response (status, headers and body bytes). -/
theorem C10_roundtrip_transparent (transport : HttpRequest → Except String HttpResponse)
    (req : HttpRequest) :
    forwardedRequest req = req ∧
    (∀ e, transport req = .error e → RoundTrip transport req = .error e) ∧
    (∀ resp, transport req = .ok resp → RoundTrip transport req = .ok resp) := by
  have hfwd : forwardedRequest req = req := by
    cases req with
    | mk m u h b => cases b <;> rfl
  refine ⟨hfwd, ?_, ?_⟩ <;> intro x hx <;> simp [RoundTrip, hfwd, hx]

/-- Witness for C10 at a concrete transport and request. -/
theorem C10_roundtrip_transparent_witness :
    forwardedRequest ⟨"POST", "u", [], some [1, 2]⟩ = ⟨"POST", "u", [], some [1, 2]⟩ ∧
    RoundTrip (fun _ => .ok ⟨"200 OK", [], [7]⟩) ⟨"POST", "u", [], some [1, 2]⟩ =
      .ok ⟨"200 OK", [], [7]⟩ :=
  ⟨(C10_roundtrip_transparent (fun _ => .ok ⟨"200 OK", [], [7]⟩) ⟨"POST", "u", [], some [1, 2]⟩).1,
    (C10_roundtrip_transparent (fun _ => .ok ⟨"200 OK", [], [7]⟩)
      ⟨"POST", "u", [], some [1, 2]⟩).2.2 ⟨"200 OK", [], [7]⟩ rfl⟩

/-- Counterexample to claim C4: with the vault empty, `linux_accounts`
holding `alice`, and the `insertOrphaned` statement failing, the run
aborts with an error but the earlier writes remain — the final state has
`alice` in `not_vaulted_linux` and both comparison tables created, so the
persisted state is not as it was before the run. -/
theorem C4_counterexample :
    runComparisonForPlatform c4Src cmpInit "linux" "x" false false false true
      = (⟨some [], [("linux", ["alice"])], [("linux", [])]⟩, some .execFail) ∧
    (⟨some [], [("linux", ["alice"])], [("linux", [])]⟩ : CompareDB) ≠ cmpInit := by
  decide

/-- Claim C4 as amended: a failing step aborts the rest of the run, but
there is no rollback — `runComparisonForPlatform` behaves exactly like
running its four steps in order, stopping at the first error with every
write of the completed earlier steps still visible. -/
theorem C4_no_rollback (src : SrcTables) (st : CompareDB) (p term : String)
    (f1 f2 f3 f4 : Bool) :
    runComparisonForPlatform src st p term f1 f2 f3 f4 =
      seqPersist (comparisonSteps src p term f1 f2 f3 f4) st := by
  simp only [runComparisonForPlatform, comparisonSteps, seqPersist]
  cases h1 : createComparisonTables st p f1 with
  | mk st1 e1 =>
    cases e1 with
    | none =>
      cases h2 : filterVaultAccounts src st1 term f2 with
      | mk st2 e2 =>
        cases e2 with
        | none =>
          cases h3 : insertNotVaulted src st2 p f3 with
          | mk st3 e3 =>
            cases e3 with
            | none =>
              cases h4 : insertOrphaned src st3 p f4 with
              | mk st4 e4 => cases e4 <;> simp [h2, h3, h4]
            | some e => simp [h2, h3]
        | some e => simp [h2]
    | some e => simp

/-- Counterexample to claim C8: the comparison is not free of writes —
run on entirely empty inputs from a fresh database, it still creates the
two comparison tables and the filtered-vault temp table, so the persisted
state is changed (while the differences themselves are indeed empty). -/
theorem C8_counterexample :
    runComparisonForPlatform emptySrc cmpInit "linux" "" false false false false
      = (⟨some [], [("linux", [])], [("linux", [])]⟩, none) ∧
    (⟨some [], [("linux", [])], [("linux", [])]⟩ : CompareDB) ≠ cmpInit := by
  decide

/-- Claim C8 as amended: the comparison is deterministic and empty inputs
yield empty not-vaulted and orphaned differences, but it is implemented
as SQL inserts rather than a pure function: even on empty inputs it
mutates the persisted state (creating the comparison tables and the
filtered-vault temp table, all left holding no rows). -/
theorem C8_empty_inputs (p term : String) :
    runComparisonForPlatform emptySrc cmpInit p term false false false false
      = (⟨some [], [(p, [])], [(p, [])]⟩, none) ∧
    (⟨some [], [(p, [])], [(p, [])]⟩ : CompareDB) ≠ cmpInit := by
  constructor
  · simp [runComparisonForPlatform, createComparisonTables, filterVaultAccounts,
      insertNotVaulted, insertOrphaned, tblLookup, tblSet, emptySrc, cmpInit]
  · intro h
    have := congrArg CompareDB.filtered_vault h
    simp [cmpInit] at this

/-- Counterexample to claim C1: with vault and platform both holding the
account (id `id1`, name `root`) and search term `admin`, the run succeeds
and puts `root` into the not-vaulted result, although the claimed set
difference `keys(platform) − keys(vault)` on `account_id` is empty — the
vault is pre-filtered by the search term and matching is by name, not
id. -/
theorem C1_counterexample :
    tblLookup (runComparisonForPlatform c1Src cmpInit "linux" "admin"
        false false false false).1.not_vaulted "linux" = some ["root"] ∧
    (runComparisonForPlatform c1Src cmpInit "linux" "admin" false false false false).2 = none ∧
    ((c1Src.accountsOf "linux").map (·.account_id)).filter
        (fun k => !(decide (k ∈ c1Src.vault_accounts.map (·.account_id)))) = [] ∧
    ("root" : String) ∈ c1Src.vault_accounts.map (·.account_name) := by
  decide

/-- Claim C1 as amended: on a successful run from a fresh database, the
not-vaulted result holds exactly the platform account names with no
exactly-equal `account_name` among the vault accounts that survive the
case-insensitive search-term pre-filter — matching is by `account_name`
against a pre-filtered vault, not by `account_id` against the whole
vault. -/
theorem C1_not_vaulted_filtered_names (src : SrcTables) (p term : String) (st' : CompareDB)
    (hrun : runComparisonForPlatform src cmpInit p term false false false false = (st', none)) :
    ∃ rows, tblLookup st'.not_vaulted p = some rows ∧
      ∀ n, n ∈ rows ↔
        ((∃ a ∈ src.accountsOf p, a.account_name = n) ∧
          ¬ ∃ v ∈ src.vault_accounts,
            ilike v.account_name term = true ∧ v.account_name = n) := by
  simp only [runComparisonForPlatform, createComparisonTables, filterVaultAccounts,
    insertNotVaulted, insertOrphaned, cmpInit, tblLookup, tblSet, if_true, if_false,
    Bool.false_eq_true, ite_false, ite_true, eq_self_iff_true, List.nil_append] at hrun
  split at hrun
  next h1 => exact absurd (congrArg Prod.snd hrun) (by simp)
  next st3 h1 =>
    split at h1
    next hnv =>
      obtain ⟨h1a, -⟩ := Prod.mk.injEq .. ▸ h1
      rw [← h1a] at hrun
      simp only [tblLookup, tblSet, if_true, eq_self_iff_true, List.nil_append] at hrun
      split at hrun
      next hor =>
        obtain ⟨h2a, -⟩ := Prod.mk.injEq .. ▸ hrun
        rw [← h2a]
        refine ⟨((src.accountsOf p).map (·.account_name)).filter
          (fun n => !((src.vault_accounts.filter (fun v => ilike v.account_name term)).any
            (fun v => decide (v.account_name = n)))), ?_, ?_⟩
        · simp only [tblLookup, eq_self_iff_true, if_true]
        · intro n
          simp only [List.mem_filter, List.mem_map, List.any_eq_true, Bool.not_eq_true',
            decide_eq_true_eq, List.any_eq_false, decide_eq_false_iff_not]
          constructor
          · rintro ⟨hA, h2⟩
            refine ⟨hA, ?_⟩
            rintro ⟨v, hv, hil, hname⟩
            exact h2 v ⟨hv, hil⟩ hname
          · rintro ⟨hA, h2⟩
            refine ⟨hA, ?_⟩
            rintro x ⟨hx, hil⟩ hn
            exact h2 ⟨x, hx, hil, hn⟩
      next hor => exact absurd (congrArg Prod.snd hrun) (by simp)
    next hnv => exact absurd (congrArg Prod.snd h1) (by simp)

/-- Witness for the amended C1 at concrete inputs. -/
theorem C1_not_vaulted_filtered_names_witness :
    ∃ rows, tblLookup (CompareDB.mk (some []) [("linux", ["root"])]
        [("linux", [])]).not_vaulted "linux" = some rows ∧
      ∀ n, n ∈ rows ↔
        ((∃ a ∈ c1Src.accountsOf "linux", a.account_name = n) ∧
          ¬ ∃ v ∈ c1Src.vault_accounts,
            ilike v.account_name "admin" = true ∧ v.account_name = n) :=
  C1_not_vaulted_filtered_names c1Src "linux" "admin"
    ⟨some [], [("linux", ["root"])], [("linux", [])]⟩ (by decide)

/-- Counterexample to claim C2: with the vault holding the account (id
`idB`, name `B`) and both platform-side tables empty, the claimed
orphaned set `keys(vault) − keys(platform)` is `[idB]`, but the run
succeeds with an empty orphaned result — the code derives orphans from
the `<platform>_endpoints` table minus the vault, not from the vault. -/
theorem C2_counterexample :
    runComparisonForPlatform c2Src cmpInit "linux" "b" false false false false
      = (⟨some [⟨"idB", "B", "linux"⟩], [("linux", [])], [("linux", [])]⟩, none) ∧
    (c2Src.vault_accounts.map (·.account_id)).filter
        (fun k => !(decide (k ∈ (c2Src.accountsOf "linux").map (·.account_id)))) = ["idB"] ∧
    tblLookup (runComparisonForPlatform c2Src cmpInit "linux" "b"
        false false false false).1.orphaned "linux" = some [] := by
  decide

/-- Claim C2 as amended: on a successful run from a fresh database, the
orphaned result holds exactly the endpoint account names (from
`<platform>_endpoints`) with no exactly-equal `account_name` among the
search-filtered vault accounts — the same direction as not-vaulted, not
vault minus platform. -/
theorem C2_orphaned_endpoint_names (src : SrcTables) (p term : String) (st' : CompareDB)
    (hrun : runComparisonForPlatform src cmpInit p term false false false false = (st', none)) :
    ∃ rows, tblLookup st'.orphaned p = some rows ∧
      ∀ n, n ∈ rows ↔
        ((∃ e ∈ src.endpointsOf p, e.account_name = n) ∧
          ¬ ∃ v ∈ src.vault_accounts,
            ilike v.account_name term = true ∧ v.account_name = n) := by
  simp only [runComparisonForPlatform, createComparisonTables, filterVaultAccounts,
    insertNotVaulted, insertOrphaned, cmpInit, tblLookup, tblSet, if_true, if_false,
    Bool.false_eq_true, ite_false, ite_true, eq_self_iff_true, List.nil_append] at hrun
  split at hrun
  next h1 => exact absurd (congrArg Prod.snd hrun) (by simp)
  next st3 h1 =>
    split at h1
    next hnv =>
      obtain ⟨h1a, -⟩ := Prod.mk.injEq .. ▸ h1
      rw [← h1a] at hrun
      simp only [tblLookup, tblSet, if_true, eq_self_iff_true, List.nil_append] at hrun
      split at hrun
      next hor =>
        obtain ⟨h2a, -⟩ := Prod.mk.injEq .. ▸ hrun
        rw [← h2a]
        refine ⟨((src.endpointsOf p).map (·.account_name)).filter
          (fun n => !((src.vault_accounts.filter (fun v => ilike v.account_name term)).any
            (fun v => decide (v.account_name = n)))), ?_, ?_⟩
        · simp only [tblLookup, eq_self_iff_true, if_true]
        · intro n
          simp only [List.mem_filter, List.mem_map, List.any_eq_true, Bool.not_eq_true',
            decide_eq_true_eq, List.any_eq_false, decide_eq_false_iff_not]
          constructor
          · rintro ⟨hA, h2⟩
            refine ⟨hA, ?_⟩
            rintro ⟨v, hv, hil, hname⟩
            exact h2 v ⟨hv, hil⟩ hname
          · rintro ⟨hA, h2⟩
            refine ⟨hA, ?_⟩
            rintro x ⟨hx, hil⟩ hn
            exact h2 ⟨x, hx, hil, hn⟩
      next hor => exact absurd (congrArg Prod.snd hrun) (by simp)
    next hnv => exact absurd (congrArg Prod.snd h1) (by simp)

/-- Witness for the amended C2 at concrete inputs. -/
theorem C2_orphaned_endpoint_names_witness :
    ∃ rows, tblLookup (CompareDB.mk (some [⟨"idB", "B", "linux"⟩]) [("linux", [])]
        [("linux", [])]).orphaned "linux" = some rows ∧
      ∀ n, n ∈ rows ↔
        ((∃ e ∈ c2Src.endpointsOf "linux", e.account_name = n) ∧
          ¬ ∃ v ∈ c2Src.vault_accounts,
            ilike v.account_name "b" = true ∧ v.account_name = n) :=
  C2_orphaned_endpoint_names c2Src "linux" "b"
    ⟨some [⟨"idB", "B", "linux"⟩], [("linux", [])], [("linux", [])]⟩ (by decide)

theorem openMatches_iff (p : String) (d : DiscrepancyType) (r : DiscrepancyRecord) :
    openMatches p d r = true ↔
      (r.platform = p ∧ r.discrepancy_type = d ∧ r.is_resolved = false) := by
  unfold openMatches
  simp [Bool.and_eq_true, Bool.not_eq_true']
  tauto

theorem updateFn_touch (p : String) (d : DiscrepancyType) (t : Int) (ids : List String)
    (r : DiscrepancyRecord) (h1 : openMatches p d r = true) (h2 : r.account_id ∈ ids) :
    updateFn p d t ids r = { r with last_seen := t } := by
  unfold updateFn; rw [if_pos h1, if_pos h2]

theorem updateFn_resolve (p : String) (d : DiscrepancyType) (t : Int) (ids : List String)
    (r : DiscrepancyRecord) (h1 : openMatches p d r = true) (h2 : r.account_id ∉ ids) :
    updateFn p d t ids r = { r with is_resolved := true, resolved_at := some t } := by
  unfold updateFn; rw [if_pos h1, if_neg h2]

theorem updateFn_skip (p : String) (d : DiscrepancyType) (t : Int) (ids : List String)
    (r : DiscrepancyRecord) (h1 : openMatches p d r = false) :
    updateFn p d t ids r = r := by
  unfold updateFn; rw [if_neg (by simp [h1])]

theorem updateFn_key_fields (p : String) (d : DiscrepancyType) (t : Int) (ids : List String)
    (r : DiscrepancyRecord) :
    (updateFn p d t ids r).platform = r.platform ∧
    (updateFn p d t ids r).discrepancy_type = r.discrepancy_type ∧
    (updateFn p d t ids r).account_id = r.account_id := by
  unfold updateFn
  split
  · split <;> exact ⟨rfl, rfl, rfl⟩
  · exact ⟨rfl, rfl, rfl⟩

theorem updateFn_open (p : String) (d : DiscrepancyType) (t : Int) (ids : List String)
    (r : DiscrepancyRecord) (h : (updateFn p d t ids r).is_resolved = false) :
    r.is_resolved = false := by
  unfold updateFn at h
  split at h
  · split at h
    · exact h
    · exact absurd h (by simp)
  · exact h

theorem sameOpenKeyB_iff (a b : DiscrepancyRecord) :
    sameOpenKeyB a b = true ↔
      (a.is_resolved = false ∧ b.is_resolved = false ∧ a.platform = b.platform ∧
        a.discrepancy_type = b.discrepancy_type ∧ a.account_id = b.account_id) := by
  unfold sameOpenKeyB
  simp [Bool.and_eq_true, Bool.not_eq_true']
  tauto

theorem sameOpenKeyB_updateFn (p : String) (d : DiscrepancyType) (t : Int) (ids : List String)
    (a b : DiscrepancyRecord)
    (h : sameOpenKeyB (updateFn p d t ids a) (updateFn p d t ids b) = true) :
    sameOpenKeyB a b = true := by
  obtain ⟨ka1, ka2, ka3⟩ := updateFn_key_fields p d t ids a
  obtain ⟨kb1, kb2, kb3⟩ := updateFn_key_fields p d t ids b
  rw [sameOpenKeyB_iff] at h ⊢
  obtain ⟨h1, h2, h3, h4, h5⟩ := h
  exact ⟨updateFn_open p d t ids a h1, updateFn_open p d t ids b h2,
    by rw [← ka1, ← kb1]; exact h3, by rw [← ka2, ← kb2]; exact h4,
    by rw [← ka3, ← kb3]; exact h5⟩

theorem pairwise_map_updateFn (p : String) (d : DiscrepancyType) (t : Int) (ids : List String)
    (l : List DiscrepancyRecord) (h : l.Pairwise (fun a b => sameOpenKeyB a b = false)) :
    (l.map (updateFn p d t ids)).Pairwise (fun a b => sameOpenKeyB a b = false) := by
  refine h.map _ (fun a b hab => ?_)
  cases hq : sameOpenKeyB (updateFn p d t ids a) (updateFn p d t ids b) with
  | false => rfl
  | true => rw [sameOpenKeyB_updateFn p d t ids a b hq] at hab; cases hab

theorem insertFresh_mem (p : String) (d : DiscrepancyType) (t : Int) :
    ∀ (n : Nat) (l : List Account) (r : DiscrepancyRecord), r ∈ insertFresh p d t n l →
      r.platform = p ∧ r.discrepancy_type = d ∧ r.is_resolved = false ∧
        r.account_id ∈ l.map (·.account_id) ∧ r.first_detected = t ∧ r.resolved_at = none := by
  intro n l
  induction l generalizing n with
  | nil => intro r h; cases h
  | cons a rest ih =>
    intro r h
    rcases List.mem_cons.mp h with h1 | h2
    · subst h1
      exact ⟨rfl, rfl, rfl, List.mem_map.mpr ⟨a, List.mem_cons_self .., rfl⟩, rfl, rfl⟩
    · obtain ⟨g1, g2, g3, g4, g5, g6⟩ := ih (n + 1) r h2
      exact ⟨g1, g2, g3, by rw [List.map_cons]; exact List.mem_cons_of_mem _ g4, g5, g6⟩

theorem insertFresh_exists (p : String) (d : DiscrepancyType) (t : Int) :
    ∀ (n : Nat) (l : List Account) (a : Account), a ∈ l →
      ∃ r ∈ insertFresh p d t n l, r.account_id = a.account_id := by
  intro n l
  induction l generalizing n with
  | nil => intro a h; cases h
  | cons x rest ih =>
    intro a h
    rcases List.mem_cons.mp h with h1 | h2
    · exact ⟨mkOpenRecord p d x t n, List.mem_cons_self .., by subst h1; rfl⟩
    · obtain ⟨r, hr, he⟩ := ih (n + 1) a h2
      exact ⟨r, List.mem_cons_of_mem _ hr, he⟩

theorem insertFresh_pairwise (p : String) (d : DiscrepancyType) (t : Int) :
    ∀ (n : Nat) (l : List Account), (l.map (·.account_id)).Nodup →
      (insertFresh p d t n l).Pairwise (fun a b => sameOpenKeyB a b = false) := by
  intro n l
  induction l generalizing n with
  | nil => intro _; exact List.Pairwise.nil
  | cons a rest ih =>
    intro hnd
    rw [List.map_cons, List.nodup_cons] at hnd
    refine List.Pairwise.cons ?_ (ih (n + 1) hnd.2)
    intro r hr
    obtain ⟨-, -, -, h4, -, -⟩ := insertFresh_mem p d t (n + 1) rest r hr
    cases hq : sameOpenKeyB (mkOpenRecord p d a t n) r with
    | false => rfl
    | true =>
      exfalso
      have haid : a.account_id = r.account_id := ((sameOpenKeyB_iff _ _).mp hq).2.2.2.2
      exact hnd.1 (haid ▸ h4)

theorem openRecsOf_mem (st : HistoryStore) (p : String) (d : DiscrepancyType)
    (r : DiscrepancyRecord) :
    r ∈ openRecsOf st p d ↔ (r ∈ st.records ∧ openMatches p d r = true) := by
  unfold openRecsOf
  exact List.mem_filter

theorem cross_updateFn_insertFresh (st : HistoryStore) (p : String) (d : DiscrepancyType)
    (t : Int) (observed : List Account) (a : DiscrepancyRecord) (ha : a ∈ st.records)
    (b : DiscrepancyRecord)
    (hb : b ∈ insertFresh p d t st.nextId (toInsertOf st p d observed)) :
    sameOpenKeyB (updateFn p d t (observed.map (·.account_id)) a) b = false := by
  cases hq : sameOpenKeyB (updateFn p d t (observed.map (·.account_id)) a) b with
  | false => rfl
  | true =>
    exfalso
    obtain ⟨hb1, hb2, hb3, hb4, -, -⟩ := insertFresh_mem p d t st.nextId _ b hb
    obtain ⟨h1, h2, h3, h4, h5⟩ := (sameOpenKeyB_iff _ _).mp hq
    obtain ⟨ka1, ka2, ka3⟩ := updateFn_key_fields p d t (observed.map (·.account_id)) a
    have haopen : a.is_resolved = false := updateFn_open p d t _ a h1
    have hap : a.platform = p := by rw [← ka1, h3, hb1]
    have had : a.discrepancy_type = d := by rw [← ka2, h4, hb2]
    have haid : a.account_id = b.account_id := by rw [← ka3, h5]
    have hain : a ∈ openRecsOf st p d :=
      (openRecsOf_mem st p d a).mpr ⟨ha, (openMatches_iff p d a).mpr ⟨hap, had, haopen⟩⟩
    obtain ⟨x, hx, hxid⟩ := List.mem_map.mp hb4
    have hxIns := hx
    unfold toInsertOf at hxIns
    obtain ⟨-, hxcond⟩ := List.mem_filter.mp hxIns
    rw [Bool.not_eq_true', List.any_eq_false] at hxcond
    have hdec : decide (a.account_id = x.account_id) = true := by
      rw [haid, ← hxid]; simp
    exact absurd hdec (hxcond a hain)

theorem runOneType_ok_state (st : HistoryStore) (p : String) (d : DiscrepancyType) (t : Int)
    (observed : List Account) (st' : HistoryStore) (c u r : Nat)
    (hok : runOneType st p d t observed = .ok (st', c, u, r)) :
    st'.records = st.records.map (updateFn p d t (observed.map (·.account_id)))
        ++ insertFresh p d t st.nextId (toInsertOf st p d observed) ∧
    st'.nextId = st.nextId + (toInsertOf st p d observed).length ∧
    c = (toInsertOf st p d observed).length ∧
    u = (toUpdateOf st p d observed).length ∧
    r = (toResolveOf st p d observed).length ∧
    ((openRecsOf st p d).map (·.account_id)).Nodup ∧
    ((toInsertOf st p d observed).map (·.account_id)).Nodup := by
  unfold runOneType at hok
  split at hok
  next hopen =>
    split at hok
    next hins =>
      simp only [Except.ok.injEq, Prod.mk.injEq] at hok
      obtain ⟨h1, h2, h3, h4⟩ := hok
      exact ⟨by rw [← h1], by rw [← h1], h2.symm, h3.symm, h4.symm, hopen, hins⟩
    next hins => cases hok
  next hopen => cases hok

theorem openInvariant_nodup_openIds (st : HistoryStore) (p : String) (d : DiscrepancyType)
    (hinv : openInvariant st) :
    ((openRecsOf st p d).map (·.account_id)).Nodup := by
  have h1 : (openRecsOf st p d).Pairwise (fun a b => sameOpenKeyB a b = false) :=
    hinv.filter _
  have h2 : (openRecsOf st p d).Pairwise (fun a b => a.account_id ≠ b.account_id) := by
    refine List.Pairwise.imp_of_mem ?_ h1
    intro a b hma hmb hab haid
    obtain ⟨-, hoa⟩ := (openRecsOf_mem st p d a).mp hma
    obtain ⟨-, hob⟩ := (openRecsOf_mem st p d b).mp hmb
    obtain ⟨pa, da, ra⟩ := (openMatches_iff p d a).mp hoa
    obtain ⟨pb, db, rb⟩ := (openMatches_iff p d b).mp hob
    rw [(sameOpenKeyB_iff a b).mpr ⟨ra, rb, by rw [pa, pb], by rw [da, db], haid⟩] at hab
    cases hab
  exact h2.map _ (fun a b hne he => hne he)

theorem runOneType_invariant (st : HistoryStore) (p : String) (d : DiscrepancyType) (t : Int)
    (observed : List Account) (st' : HistoryStore) (c u r : Nat)
    (hinv : openInvariant st) (hok : runOneType st p d t observed = .ok (st', c, u, r)) :
    openInvariant st' := by
  obtain ⟨h1, -, -, -, -, -, hins⟩ := runOneType_ok_state st p d t observed st' c u r hok
  unfold openInvariant
  rw [h1, List.pairwise_append]
  refine ⟨pairwise_map_updateFn p d t _ _ hinv, insertFresh_pairwise p d t _ _ hins, ?_⟩
  intro a hma b hmb
  obtain ⟨a0, ha0, ha0e⟩ := List.mem_map.mp hma
  rw [← ha0e]
  exact cross_updateFn_insertFresh st p d t observed a0 ha0 b hmb

theorem EngineRun_ok_parts (st : HistoryStore) (p : String) (t : Int)
    (vault platform : List Account) (st' : HistoryStore) (s : Summary)
    (hok : EngineRun st p t vault platform = .ok (st', s)) :
    ∃ st1 c1 u1 r1 c2 u2 r2,
      runOneType st p .notVaulted t (observedOf .notVaulted vault platform)
        = .ok (st1, c1, u1, r1) ∧
      runOneType st1 p .orphaned t (observedOf .orphaned vault platform)
        = .ok (st', c2, u2, r2) ∧
      s = ⟨c1 + c2, u1 + u2, r1 + r2⟩ := by
  unfold EngineRun at hok
  split at hok
  next he => cases hok
  next st1 c1 u1 r1 h1 =>
    split at hok
    next he => cases hok
    next st2 c2 u2 r2 h2 =>
      simp only [Except.ok.injEq, Prod.mk.injEq] at hok
      obtain ⟨ha, hb⟩ := hok
      subst ha
      exact ⟨st1, c1, u1, r1, c2, u2, r2, h1, h2, hb.symm⟩

theorem EngineRun_invariant (st : HistoryStore) (p : String) (t : Int)
    (vault platform : List Account) (st' : HistoryStore) (s : Summary)
    (hinv : openInvariant st) (hok : EngineRun st p t vault platform = .ok (st', s)) :
    openInvariant st' := by
  obtain ⟨st1, c1, u1, r1, c2, u2, r2, h1, h2, -⟩ :=
    EngineRun_ok_parts st p t vault platform st' s hok
  exact runOneType_invariant st1 p .orphaned t _ st' c2 u2 r2
    (runOneType_invariant st p .notVaulted t _ st1 c1 u1 r1 hinv h1) h2

theorem EngineRun_mem (st : HistoryStore) (p : String) (t : Int)
    (vault platform : List Account) (st' : HistoryStore) (s : Summary)
    (hok : EngineRun st p t vault platform = .ok (st', s))
    (r : DiscrepancyRecord) (hr : r ∈ st.records) :
    updateFn p .orphaned t ((observedOf .orphaned vault platform).map (·.account_id))
      (updateFn p .notVaulted t ((observedOf .notVaulted vault platform).map (·.account_id)) r)
      ∈ st'.records := by
  obtain ⟨st1, c1, u1, r1, c2, u2, r2, h1, h2, -⟩ :=
    EngineRun_ok_parts st p t vault platform st' s hok
  obtain ⟨hs1, -⟩ := runOneType_ok_state st p .notVaulted t _ st1 c1 u1 r1 h1
  obtain ⟨hs2, -⟩ := runOneType_ok_state st1 p .orphaned t _ st' c2 u2 r2 h2
  rw [hs2]
  refine List.mem_append_left _ (List.mem_map_of_mem _ ?_)
  rw [hs1]
  exact List.mem_append_left _ (List.mem_map_of_mem _ hr)

theorem openMatches_false_of_resolved (p : String) (d : DiscrepancyType)
    (r : DiscrepancyRecord) (h : r.is_resolved = true) : openMatches p d r = false := by
  cases hq : openMatches p d r with
  | false => rfl
  | true =>
    rw [((openMatches_iff p d r).mp hq).2.2] at h
    cases h

theorem openMatches_false_of_dtype (p : String) (d : DiscrepancyType)
    (r : DiscrepancyRecord) (h : r.discrepancy_type ≠ d) : openMatches p d r = false := by
  cases hq : openMatches p d r with
  | false => rfl
  | true => exact absurd ((openMatches_iff p d r).mp hq).2.1 h

/-- Claim C3: the store guards the open-record invariant — `InsertRecord`
fails with `ConflictError` when an open record for the same key exists,
and a successful reconciliation run preserves the invariant that no key
has two open records. -/
theorem C3_open_record_invariant :
    (∀ (st : HistoryStore) (rec : DiscrepancyRecord),
      (∃ r ∈ st.records, (openMatches rec.platform rec.discrepancy_type r
          && decide (r.account_id = rec.account_id)) = true) →
      InsertRecord st rec = .error .conflict) ∧
    ∀ (st : HistoryStore) (p : String) (t : Int) (vault platform : List Account)
      (st' : HistoryStore) (s : Summary),
      openInvariant st → EngineRun st p t vault platform = .ok (st', s) →
      openInvariant st' := by
  constructor
  · rintro st rec ⟨r, hr, hcond⟩
    unfold InsertRecord
    rw [if_pos (List.any_eq_true.mpr ⟨r, hr, hcond⟩)]
  · intro st p t vault platform st' s hinv hok
    exact EngineRun_invariant st p t vault platform st' s hinv hok

/-- Witness for C3 at concrete inputs. -/
theorem C3_open_record_invariant_witness :
    InsertRecord ⟨[⟨0, "azure", .notVaulted, "a1", "n1", 1, 1, false, none⟩], 1⟩
      ⟨7, "azure", .notVaulted, "a1", "n2", 2, 2, false, none⟩ = .error .conflict ∧
    openInvariant ⟨[⟨0, "azure", .notVaulted, "a1", "n1", 1, 2, false, none⟩], 1⟩ :=
  ⟨C3_open_record_invariant.1 _ _ ⟨_, List.mem_cons_self .., by decide⟩,
    C3_open_record_invariant.2 ⟨[⟨0, "azure", .notVaulted, "a1", "n1", 1, 1, false, none⟩], 1⟩
      "azure" 2 [] [⟨"a1", "n1", "azure"⟩]
      ⟨[⟨0, "azure", .notVaulted, "a1", "n1", 1, 2, false, none⟩], 1⟩ ⟨0, 1, 0⟩
      (by unfold openInvariant; decide) rfl⟩

/-- Claim C6: in a successful run, every open record of the platform
whose key the run does not observe is marked resolved — still present,
`resolved_at` set to the run timestamp, `last_seen` untouched (hence
`resolved_at ≥ last_seen` when the run time is not earlier than the
record's last update) — while every open record whose key is observed
stays open with `last_seen` advanced, so no other record is resolved and
none is deleted. -/
theorem C6_resolve_unobserved (st : HistoryStore) (p : String) (t : Int)
    (vault platform : List Account) (st' : HistoryStore) (s : Summary)
    (hok : EngineRun st p t vault platform = .ok (st', s))
    (hts : ∀ r ∈ st.records, r.last_seen ≤ t) :
    (∀ r ∈ st.records, r.platform = p → r.is_resolved = false →
      r.account_id ∉ (observedOf r.discrepancy_type vault platform).map (·.account_id) →
      ({ r with is_resolved := true, resolved_at := some t } ∈ st'.records ∧
        r.last_seen ≤ t)) ∧
    ∀ r ∈ st.records, r.platform = p → r.is_resolved = false →
      r.account_id ∈ (observedOf r.discrepancy_type vault platform).map (·.account_id) →
      { r with last_seen := t } ∈ st'.records := by
  constructor
  · intro r hr hp hres hobs
    have hm := EngineRun_mem st p t vault platform st' s hok r hr
    cases hd : r.discrepancy_type with
    | notVaulted =>
      rw [hd] at hobs
      rw [updateFn_resolve p .notVaulted t _ r
        ((openMatches_iff p .notVaulted r).mpr ⟨hp, hd, hres⟩) hobs] at hm
      rw [updateFn_skip p .orphaned t _ _
        (openMatches_false_of_resolved p .orphaned _ rfl)] at hm
      rw [hd] at hm
      exact ⟨hm, hts r hr⟩
    | orphaned =>
      rw [hd] at hobs
      rw [updateFn_skip p .notVaulted t _ r
        (openMatches_false_of_dtype p .notVaulted r (by rw [hd]; simp))] at hm
      rw [updateFn_resolve p .orphaned t _ r
        ((openMatches_iff p .orphaned r).mpr ⟨hp, hd, hres⟩) hobs] at hm
      rw [hd] at hm
      exact ⟨hm, hts r hr⟩
  · intro r hr hp hres hobs
    have hm := EngineRun_mem st p t vault platform st' s hok r hr
    cases hd : r.discrepancy_type with
    | notVaulted =>
      rw [hd] at hobs
      rw [updateFn_touch p .notVaulted t _ r
        ((openMatches_iff p .notVaulted r).mpr ⟨hp, hd, hres⟩) hobs] at hm
      rw [updateFn_skip p .orphaned t _ _
        (openMatches_false_of_dtype p .orphaned _ (by rw [show ({ r with last_seen := t } :
          DiscrepancyRecord).discrepancy_type = r.discrepancy_type from rfl, hd]; simp))] at hm
      rw [hd] at hm
      exact hm
    | orphaned =>
      rw [hd] at hobs
      rw [updateFn_skip p .notVaulted t _ r
        (openMatches_false_of_dtype p .notVaulted r (by rw [hd]; simp))] at hm
      rw [updateFn_touch p .orphaned t _ r
        ((openMatches_iff p .orphaned r).mpr ⟨hp, hd, hres⟩) hobs] at hm
      rw [hd] at hm
      exact hm

/-- Witness for C6 at concrete inputs. -/
theorem C6_resolve_unobserved_witness :
    ((⟨0, "azure", .notVaulted, "a1", "n1", 1, 1, true, some 9⟩ : DiscrepancyRecord) ∈
      (HistoryStore.mk [⟨0, "azure", .notVaulted, "a1", "n1", 1, 1, true, some 9⟩] 1).records ∧
      (1 : Int) ≤ 9) :=
  (C6_resolve_unobserved ⟨[⟨0, "azure", .notVaulted, "a1", "n1", 1, 1, false, none⟩], 1⟩
      "azure" 9 [] []
      ⟨[⟨0, "azure", .notVaulted, "a1", "n1", 1, 1, true, some 9⟩], 1⟩ ⟨0, 0, 1⟩
      rfl (by decide)).1
    ⟨0, "azure", .notVaulted, "a1", "n1", 1, 1, false, none⟩
    (List.mem_cons_self ..) rfl rfl (by decide)

theorem openMatches_false_of_platform (p : String) (d : DiscrepancyType)
    (r : DiscrepancyRecord) (h : r.platform ≠ p) : openMatches p d r = false := by
  cases hq : openMatches p d r with
  | false => rfl
  | true => exact absurd ((openMatches_iff p d r).mp hq).1 h

theorem filter_open_map_same (p : String) (d : DiscrepancyType) (t : Int) (ids : List String) :
    ∀ l : List DiscrepancyRecord,
      (l.map (updateFn p d t ids)).filter (openMatches p d) =
        ((l.filter (openMatches p d)).filter (fun r => decide (r.account_id ∈ ids))).map
          (fun r => { r with last_seen := t })
  | [] => rfl
  | a :: rest => by
    simp only [List.map_cons, List.filter_cons]
    by_cases h1 : openMatches p d a = true
    · by_cases h2 : a.account_id ∈ ids
      · rw [updateFn_touch p d t ids a h1 h2]
        have ho : openMatches p d { a with last_seen := t } = true := by
          rw [openMatches_iff] at h1 ⊢
          exact h1
        simp [h1, h2, ho, filter_open_map_same p d t ids rest]
      · rw [updateFn_resolve p d t ids a h1 h2]
        have ho : openMatches p d { a with is_resolved := true, resolved_at := some t }
            = false := openMatches_false_of_resolved p d _ rfl
        simp [h1, h2, ho, filter_open_map_same p d t ids rest]
    · rw [updateFn_skip p d t ids a (by simpa using h1)]
      simp [h1, filter_open_map_same p d t ids rest]

theorem filter_open_map_other (p : String) (d d' : DiscrepancyType) (t : Int)
    (ids : List String) (hne : d' ≠ d) :
    ∀ l : List DiscrepancyRecord,
      (l.map (updateFn p d' t ids)).filter (openMatches p d) = l.filter (openMatches p d)
  | [] => rfl
  | a :: rest => by
    simp only [List.map_cons, List.filter_cons]
    by_cases h1 : openMatches p d' a = true
    · have hd : a.discrepancy_type = d' := ((openMatches_iff p d' a).mp h1).2.1
      have hopen : openMatches p d a = false :=
        openMatches_false_of_dtype p d a (by rw [hd]; exact hne)
      by_cases h2 : a.account_id ∈ ids
      · rw [updateFn_touch p d' t ids a h1 h2]
        have ho : openMatches p d { a with last_seen := t } = false :=
          openMatches_false_of_dtype p d _ (by
            show a.discrepancy_type ≠ d
            rw [hd]; exact hne)
        simp [hopen, ho, filter_open_map_other p d d' t ids hne rest]
      · rw [updateFn_resolve p d' t ids a h1 h2]
        have ho : openMatches p d { a with is_resolved := true, resolved_at := some t }
            = false := openMatches_false_of_resolved p d _ rfl
        simp [hopen, ho, filter_open_map_other p d d' t ids hne rest]
    · rw [updateFn_skip p d' t ids a (by simpa using h1)]
      simp [filter_open_map_other p d d' t ids hne rest]

theorem filter_open_insertFresh_same (p : String) (d : DiscrepancyType) (t : Int) :
    ∀ (n : Nat) (l : List Account),
      (insertFresh p d t n l).filter (openMatches p d) = insertFresh p d t n l
  | _, [] => rfl
  | n, a :: rest => by
    have ho : openMatches p d (mkOpenRecord p d a t n) = true := by
      rw [openMatches_iff]
      exact ⟨rfl, rfl, rfl⟩
    simp [insertFresh, ho, filter_open_insertFresh_same p d t (n + 1) rest]

theorem filter_open_insertFresh_other (p : String) (d d' : DiscrepancyType) (t : Int)
    (hne : d' ≠ d) :
    ∀ (n : Nat) (l : List Account),
      (insertFresh p d' t n l).filter (openMatches p d) = []
  | _, [] => rfl
  | n, a :: rest => by
    have ho : openMatches p d (mkOpenRecord p d' a t n) = false :=
      openMatches_false_of_dtype p d _ hne
    simp [insertFresh, ho, filter_open_insertFresh_other p d d' t hne (n + 1) rest]

theorem openRecsOf_runOneType_same (st : HistoryStore) (p : String) (d : DiscrepancyType)
    (t : Int) (observed : List Account) (st' : HistoryStore) (c u r : Nat)
    (hok : runOneType st p d t observed = .ok (st', c, u, r)) :
    openRecsOf st' p d =
      ((openRecsOf st p d).filter
          (fun x => decide (x.account_id ∈ observed.map (·.account_id)))).map
        (fun x => { x with last_seen := t })
      ++ insertFresh p d t st.nextId (toInsertOf st p d observed) := by
  obtain ⟨h1, -⟩ := runOneType_ok_state st p d t observed st' c u r hok
  show st'.records.filter (openMatches p d) = _
  rw [h1, List.filter_append, filter_open_map_same, filter_open_insertFresh_same]
  rfl

theorem openRecsOf_runOneType_other (st : HistoryStore) (p : String) (d d' : DiscrepancyType)
    (t : Int) (observed : List Account) (st' : HistoryStore) (c u r : Nat) (hne : d' ≠ d)
    (hok : runOneType st p d' t observed = .ok (st', c, u, r)) :
    openRecsOf st' p d = openRecsOf st p d := by
  obtain ⟨h1, -⟩ := runOneType_ok_state st p d' t observed st' c u r hok
  show st'.records.filter (openMatches p d) = _
  rw [h1, List.filter_append, filter_open_map_other p d d' t _ hne,
    filter_open_insertFresh_other p d d' t hne, List.append_nil]
  rfl

theorem openIds_runOneType (st : HistoryStore) (p : String) (d : DiscrepancyType) (t : Int)
    (observed : List Account) (st' : HistoryStore) (c u r : Nat)
    (hok : runOneType st p d t observed = .ok (st', c, u, r)) :
    ∀ x, x ∈ (openRecsOf st' p d).map (·.account_id) ↔
      x ∈ observed.map (·.account_id) := by
  intro x
  rw [openRecsOf_runOneType_same st p d t observed st' c u r hok]
  constructor
  · intro hx
    rw [List.map_append, List.mem_append] at hx
    rcases hx with hx | hx
    · obtain ⟨y, hy, hye⟩ := List.mem_map.mp hx
      obtain ⟨z, hz, hze⟩ := List.mem_map.mp hy
      obtain ⟨-, hzin⟩ := List.mem_filter.mp hz
      rw [← hye, ← hze]
      exact of_decide_eq_true hzin
    · obtain ⟨y, hy, hye⟩ := List.mem_map.mp hx
      obtain ⟨-, -, -, h4, -, -⟩ := insertFresh_mem p d t st.nextId _ y hy
      obtain ⟨z, hz, hze⟩ := List.mem_map.mp h4
      obtain ⟨hzobs, -⟩ := List.mem_filter.mp hz
      rw [← hye, ← hze]
      exact List.mem_map_of_mem _ hzobs
  · intro hx
    obtain ⟨a, ha, hae⟩ := List.mem_map.mp hx
    rw [List.map_append, List.mem_append]
    by_cases hany : (openRecsOf st p d).any
        (fun rr => decide (rr.account_id = a.account_id)) = true
    · obtain ⟨rr, hrr, hrre⟩ := List.any_eq_true.mp hany
      have hrraid : rr.account_id = a.account_id := of_decide_eq_true hrre
      left
      refine List.mem_map.mpr ⟨{ rr with last_seen := t }, List.mem_map.mpr ⟨rr, ?_, rfl⟩, ?_⟩
      · refine List.mem_filter.mpr ⟨hrr, decide_eq_true ?_⟩
        rw [hrraid, hae]
        exact hae ▸ List.mem_map_of_mem _ ha
      · show rr.account_id = x
        rw [hrraid, hae]
    · right
      have hains : a ∈ toInsertOf st p d observed := by
        unfold toInsertOf
        refine List.mem_filter.mpr ⟨ha, ?_⟩
        rw [Bool.not_eq_true']
        exact (Bool.not_eq_true _).mp hany
      obtain ⟨rr, hrr, hrre⟩ := insertFresh_exists p d t st.nextId _ a hains
      refine List.mem_map.mpr ⟨rr, hrr, ?_⟩
      rw [hrre, hae]

theorem runOneType_all_open (st1 : HistoryStore) (p : String) (d : DiscrepancyType)
    (t2 : Int) (observed : List Account)
    (hOpenNodup : ((openRecsOf st1 p d).map (·.account_id)).Nodup)
    (hIns : toInsertOf st1 p d observed = [])
    (hRes : toResolveOf st1 p d observed = []) :
    runOneType st1 p d t2 observed = .ok
      ({ records := st1.records.map (updateFn p d t2 (observed.map (·.account_id))),
         nextId := st1.nextId }, 0, (toUpdateOf st1 p d observed).length, 0) := by
  unfold runOneType
  rw [hIns, hRes, if_pos hOpenNodup]
  simp [insertFresh]

theorem toUpdate_toInsert_length (st : HistoryStore) (p : String) (d : DiscrepancyType)
    (observed : List Account) :
    (toUpdateOf st p d observed).length + (toInsertOf st p d observed).length
      = observed.length := by
  unfold toUpdateOf toInsertOf
  induction observed with
  | nil => rfl
  | cons a rest ih =>
    simp only [List.filter_cons]
    cases h : (openRecsOf st p d).any (fun r => decide (r.account_id = a.account_id)) <;>
      simp [h, ih] <;> omega

theorem length_filter_open_split (p : String) : ∀ l : List DiscrepancyRecord,
    (l.filter (fun r => decide (r.platform = p) && !r.is_resolved)).length =
      (l.filter (openMatches p .notVaulted)).length
        + (l.filter (openMatches p .orphaned)).length
  | [] => rfl
  | a :: rest => by
    have ih := length_filter_open_split p rest
    simp only [List.filter_cons]
    by_cases hp : a.platform = p
    · cases hres : a.is_resolved with
      | true =>
        have h1 : openMatches p .notVaulted a = false :=
          openMatches_false_of_resolved p _ a hres
        have h2 : openMatches p .orphaned a = false :=
          openMatches_false_of_resolved p _ a hres
        simp [hp, hres, h1, h2, ih]
      | false =>
        cases hd : a.discrepancy_type with
        | notVaulted =>
          have h1 : openMatches p .notVaulted a = true :=
            (openMatches_iff p _ a).mpr ⟨hp, hd, hres⟩
          have h2 : openMatches p .orphaned a = false :=
            openMatches_false_of_dtype p _ a (by rw [hd]; simp)
          simp [hp, hres, h1, h2, ih]
          omega
        | orphaned =>
          have h1 : openMatches p .notVaulted a = false :=
            openMatches_false_of_dtype p _ a (by rw [hd]; simp)
          have h2 : openMatches p .orphaned a = true :=
            (openMatches_iff p _ a).mpr ⟨hp, hd, hres⟩
          simp [hp, hres, h1, h2, ih]
          omega
    · have h1 : openMatches p .notVaulted a = false :=
        openMatches_false_of_platform p _ a hp
      have h2 : openMatches p .orphaned a = false :=
        openMatches_false_of_platform p _ a hp
      simp [hp, h1, h2, ih]

theorem length_eq_of_openIds (rs : List DiscrepancyRecord) (observed : List Account)
    (hN1 : (rs.map (·.account_id)).Nodup)
    (hN2 : (observed.map (·.account_id)).Nodup)
    (hmem : ∀ x, x ∈ rs.map (·.account_id) ↔ x ∈ observed.map (·.account_id)) :
    rs.length = observed.length := by
  have hperm : List.Perm (rs.map (·.account_id)) (observed.map (·.account_id)) :=
    (List.perm_ext_iff_of_nodup hN1 hN2).mpr hmem
  have hl := hperm.length_eq
  simpa using hl

set_option maxHeartbeats 1000000 in
/-- Claim C7: a second reconciliation run for the same platform with the
same observed account sets is idempotent — it creates no record, resolves
no record, reports an updated count equal to the number of records open
for the platform after the first run, and adds no row to the history. -/
theorem C7_idempotent_second_run (st : HistoryStore) (p : String) (t1 t2 : Int)
    (vault platform : List Account) (st1 : HistoryStore) (s1 : Summary)
    (hinv : openInvariant st)
    (hvn : (vault.map (·.account_id)).Nodup)
    (hpn : (platform.map (·.account_id)).Nodup)
    (h1 : EngineRun st p t1 vault platform = .ok (st1, s1)) :
    ∃ st2, EngineRun st1 p t2 vault platform = .ok (st2, ⟨0, openCountFor st1 p, 0⟩) ∧
      st2.records.length = st1.records.length := by
  have hinv1 : openInvariant st1 := EngineRun_invariant st p t1 vault platform st1 s1 hinv h1
  obtain ⟨stA, c1, u1, r1, c2, u2, r2, hA, hB, -⟩ :=
    EngineRun_ok_parts st p t1 vault platform st1 s1 h1
  have hopen_nv : openRecsOf st1 p .notVaulted = openRecsOf stA p .notVaulted :=
    openRecsOf_runOneType_other stA p .notVaulted .orphaned t1 _ st1 c2 u2 r2 (by simp) hB
  have hmem_nv : ∀ x, x ∈ (openRecsOf st1 p .notVaulted).map (·.account_id) ↔
      x ∈ (observedOf .notVaulted vault platform).map (·.account_id) := by
    intro x
    rw [hopen_nv]
    exact openIds_runOneType st p .notVaulted t1 _ stA c1 u1 r1 hA x
  have hmem_or : ∀ x, x ∈ (openRecsOf st1 p .orphaned).map (·.account_id) ↔
      x ∈ (observedOf .orphaned vault platform).map (·.account_id) :=
    openIds_runOneType stA p .orphaned t1 _ st1 c2 u2 r2 hB
  have hnvN : ((observedOf .notVaulted vault platform).map (·.account_id)).Nodup := by
    have hsub : ((observedOf .notVaulted vault platform).map (·.account_id)).Sublist
        (platform.map (·.account_id)) := by
      unfold observedOf
      exact (List.filter_sublist _).map _
    exact hpn.sublist hsub
  have horN : ((observedOf .orphaned vault platform).map (·.account_id)).Nodup := by
    have hsub : ((observedOf .orphaned vault platform).map (·.account_id)).Sublist
        (vault.map (·.account_id)) := by
      unfold observedOf
      exact (List.filter_sublist _).map _
    exact hvn.sublist hsub
  have hIns_nv : toInsertOf st1 p .notVaulted (observedOf .notVaulted vault platform) = [] := by
    unfold toInsertOf
    rw [List.filter_eq_nil_iff]
    intro a ha
    have haid : a.account_id ∈ (openRecsOf st1 p .notVaulted).map (·.account_id) :=
      (hmem_nv a.account_id).mpr (List.mem_map_of_mem _ ha)
    obtain ⟨rr, hrr, hrre⟩ := List.mem_map.mp haid
    have hany : (openRecsOf st1 p .notVaulted).any
        (fun r => decide (r.account_id = a.account_id)) = true :=
      List.any_eq_true.mpr ⟨rr, hrr, decide_eq_true hrre⟩
    simp [hany]
  have hRes_nv : toResolveOf st1 p .notVaulted (observedOf .notVaulted vault platform) = [] := by
    unfold toResolveOf
    rw [List.filter_eq_nil_iff]
    intro rr hrr
    have haid : rr.account_id ∈ (observedOf .notVaulted vault platform).map (·.account_id) :=
      (hmem_nv rr.account_id).mp (List.mem_map_of_mem _ hrr)
    simp [haid]
  have hP1 := runOneType_all_open st1 p .notVaulted t2 (observedOf .notVaulted vault platform)
    (openInvariant_nodup_openIds st1 p .notVaulted hinv1) hIns_nv hRes_nv
  have hopenB : openRecsOf
      { records := st1.records.map (updateFn p .notVaulted t2
          ((observedOf .notVaulted vault platform).map (·.account_id))),
        nextId := st1.nextId } p .orphaned = openRecsOf st1 p .orphaned := by
    show (st1.records.map _).filter (openMatches p .orphaned) = _
    rw [filter_open_map_other p .orphaned .notVaulted t2 _ (by simp)]
    rfl
  have hIns_or : toInsertOf
      { records := st1.records.map (updateFn p .notVaulted t2
          ((observedOf .notVaulted vault platform).map (·.account_id))),
        nextId := st1.nextId } p .orphaned (observedOf .orphaned vault platform) = [] := by
    unfold toInsertOf
    rw [hopenB, List.filter_eq_nil_iff]
    intro a ha
    have haid : a.account_id ∈ (openRecsOf st1 p .orphaned).map (·.account_id) :=
      (hmem_or a.account_id).mpr (List.mem_map_of_mem _ ha)
    obtain ⟨rr, hrr, hrre⟩ := List.mem_map.mp haid
    have hany : (openRecsOf st1 p .orphaned).any
        (fun r => decide (r.account_id = a.account_id)) = true :=
      List.any_eq_true.mpr ⟨rr, hrr, decide_eq_true hrre⟩
    simp [hany]
  have hRes_or : toResolveOf
      { records := st1.records.map (updateFn p .notVaulted t2
          ((observedOf .notVaulted vault platform).map (·.account_id))),
        nextId := st1.nextId } p .orphaned (observedOf .orphaned vault platform) = [] := by
    unfold toResolveOf
    rw [hopenB, List.filter_eq_nil_iff]
    intro rr hrr
    have haid : rr.account_id ∈ (observedOf .orphaned vault platform).map (·.account_id) :=
      (hmem_or rr.account_id).mp (List.mem_map_of_mem _ hrr)
    simp [haid]
  have hNodB : ((openRecsOf
      { records := st1.records.map (updateFn p .notVaulted t2
          ((observedOf .notVaulted vault platform).map (·.account_id))),
        nextId := st1.nextId } p .orphaned).map (·.account_id)).Nodup := by
    rw [hopenB]
    exact openInvariant_nodup_openIds st1 p .orphaned hinv1
  have hP2 := runOneType_all_open
    { records := st1.records.map (updateFn p .notVaulted t2
        ((observedOf .notVaulted vault platform).map (·.account_id))),
      nextId := st1.nextId } p .orphaned t2 (observedOf .orphaned vault platform)
    hNodB hIns_or hRes_or
  -- updated counts
  have hu1 : (toUpdateOf st1 p .notVaulted (observedOf .notVaulted vault platform)).length
      = (observedOf .notVaulted vault platform).length := by
    have hh := toUpdate_toInsert_length st1 p .notVaulted (observedOf .notVaulted vault platform)
    rw [hIns_nv] at hh
    simpa using hh
  have hu2 : (toUpdateOf
      { records := st1.records.map (updateFn p .notVaulted t2
          ((observedOf .notVaulted vault platform).map (·.account_id))),
        nextId := st1.nextId } p .orphaned (observedOf .orphaned vault platform)).length
      = (observedOf .orphaned vault platform).length := by
    have hh := toUpdate_toInsert_length
      { records := st1.records.map (updateFn p .notVaulted t2
          ((observedOf .notVaulted vault platform).map (·.account_id))),
        nextId := st1.nextId } p .orphaned (observedOf .orphaned vault platform)
    rw [hIns_or] at hh
    simpa using hh
  have hcount : openCountFor st1 p
      = (observedOf .notVaulted vault platform).length
        + (observedOf .orphaned vault platform).length := by
    have hsplit := length_filter_open_split p st1.records
    have hl1 : (openRecsOf st1 p .notVaulted).length
        = (observedOf .notVaulted vault platform).length :=
      length_eq_of_openIds _ _ (openInvariant_nodup_openIds st1 p .notVaulted hinv1)
        hnvN hmem_nv
    have hl2 : (openRecsOf st1 p .orphaned).length
        = (observedOf .orphaned vault platform).length :=
      length_eq_of_openIds _ _ (openInvariant_nodup_openIds st1 p .orphaned hinv1)
        horN hmem_or
    unfold openCountFor
    rw [hsplit]
    show (openRecsOf st1 p .notVaulted).length + (openRecsOf st1 p .orphaned).length = _
    rw [hl1, hl2]
  refine ⟨⟨(st1.records.map (updateFn p .notVaulted t2
      ((observedOf .notVaulted vault platform).map (·.account_id)))).map
        (updateFn p .orphaned t2 ((observedOf .orphaned vault platform).map (·.account_id))),
      st1.nextId⟩, ?_, ?_⟩
  · unfold EngineRun
    rw [hP1]
    simp only [hP2]
    rw [hcount]
    simp [hu1, hu2]
  · simp

set_option maxHeartbeats 1000000 in
/-- Claim C5: detect-resolve-reappear for any key leaves exactly two
history rows — the first record resolved (with `resolved_at` the time of
the resolving run and `first_detected` the time of the first run), the
second one open with a fresh `first_detected` equal to the time of the
reappearance run. -/
theorem C5_reappearance_two_rows (p aid an apf : String) (t1 t2 t3 : Int) :
    ∃ st1 s1 st2 s2 st3 s3,
      EngineRun ⟨[], 0⟩ p t1 [] [⟨aid, an, apf⟩] = .ok (st1, s1) ∧
      EngineRun st1 p t2 [⟨aid, an, apf⟩] [⟨aid, an, apf⟩] = .ok (st2, s2) ∧
      EngineRun st2 p t3 [] [⟨aid, an, apf⟩] = .ok (st3, s3) ∧
      st3.records = [⟨0, p, .notVaulted, aid, an, t1, t1, true, some t2⟩,
                     ⟨1, p, .notVaulted, aid, an, t3, t3, false, none⟩] := by
  refine ⟨⟨[⟨0, p, .notVaulted, aid, an, t1, t1, false, none⟩], 1⟩, ⟨1, 0, 0⟩,
    ⟨[⟨0, p, .notVaulted, aid, an, t1, t1, true, some t2⟩], 1⟩, ⟨0, 0, 1⟩,
    ⟨[⟨0, p, .notVaulted, aid, an, t1, t1, true, some t2⟩,
      ⟨1, p, .notVaulted, aid, an, t3, t3, false, none⟩], 2⟩, ⟨1, 0, 0⟩, ?_, ?_, ?_, rfl⟩
  · simp [EngineRun, runOneType, observedOf, openRecsOf, toInsertOf, toUpdateOf, toResolveOf,
      updateFn, insertFresh, mkOpenRecord, openMatches]
  · simp [EngineRun, runOneType, observedOf, openRecsOf, toInsertOf, toUpdateOf, toResolveOf,
      updateFn, insertFresh, mkOpenRecord, openMatches]
  · simp [EngineRun, runOneType, observedOf, openRecsOf, toInsertOf, toUpdateOf, toResolveOf,
      updateFn, insertFresh, mkOpenRecord, openMatches]

/-- Witness for C7 at concrete inputs. -/
theorem C7_idempotent_second_run_witness :
    ∃ st2, EngineRun ⟨[⟨0, "azure", .notVaulted, "a1", "an", 1, 1, false, none⟩,
        ⟨1, "azure", .orphaned, "b1", "bn", 1, 1, false, none⟩], 2⟩ "azure" 5
        [⟨"b1", "bn", "azure"⟩] [⟨"a1", "an", "azure"⟩]
      = .ok (st2, ⟨0, openCountFor ⟨[⟨0, "azure", .notVaulted, "a1", "an", 1, 1, false, none⟩,
          ⟨1, "azure", .orphaned, "b1", "bn", 1, 1, false, none⟩], 2⟩ "azure", 0⟩) ∧
      st2.records.length = (HistoryStore.mk
        [⟨0, "azure", .notVaulted, "a1", "an", 1, 1, false, none⟩,
         ⟨1, "azure", .orphaned, "b1", "bn", 1, 1, false, none⟩] 2).records.length :=
  C7_idempotent_second_run ⟨[], 0⟩ "azure" 1 5
    [⟨"b1", "bn", "azure"⟩] [⟨"a1", "an", "azure"⟩]
    ⟨[⟨0, "azure", .notVaulted, "a1", "an", 1, 1, false, none⟩,
      ⟨1, "azure", .orphaned, "b1", "bn", 1, 1, false, none⟩], 2⟩ ⟨2, 0, 0⟩
    (by unfold openInvariant; decide) (by decide) (by decide) rfl
